import Mathlib

/-!
Verification of the BitFer resource-constrained pipeline batch scheduler.

The development shallowly embeds, over exact rationals, the arithmetic of:
* the host-side batcher (`host-batcher-smart.js`): the Batch Planner
  (stage thread counts from a desired per-batch yield fraction), the
  Capacity Packer (concurrency from free RAM with yield-cap refinement
  and proportional down-scaling), and the Stage-Timing Scheduler
  (per-stage start delays from target completion instants);
* the shared Target Selector and Assignment Policy of
  `controller-smart.js`;
* the per-thread decision loop of `worker.js`;
* the argument-clamping invocation surface of the batcher.

External game reads (per-thread hack fraction, growth analysis, script
RAM sizes, host RAM, stage times) are inputs of the embedding; JavaScript
number arithmetic is modelled exactly on ℚ (`Math.floor` as `Int.floor`,
`Math.ceil` as `Int.ceil`, `Math.round` as `round`, which is ⌊x + 1/2⌋,
matching JavaScript round-half-up).
-/

/-- External inputs observed by one planning cycle of
`host-batcher-smart.js`: per-thread hack fraction (`ns.hackAnalyze`), the
optional refined fraction from `ns.formulas.hacking.hackPercent`, the
growth-thread estimator (`ns.growthAnalyze`, or its logarithmic fallback,
as a black-box function of the growth factor), script RAM sizes, host RAM,
and stage durations in milliseconds. -/
structure ExtIn where
  perHack : ℚ
  formulasPerHack : Option ℚ
  growthFn : ℚ → ℚ
  ramHack : ℚ
  ramGrow : ℚ
  ramWeaken : ℚ
  hostMaxRam : ℚ
  hostUsedRam : ℚ
  hackTime : ℚ
  growTime : ℚ
  weakenTime : ℚ

/-- Security increase per hack thread (heuristic constant). -/
def SEC_INC_HACK : ℚ := 0.002

/-- Security increase per grow thread (heuristic constant). -/
def SEC_INC_GROW : ℚ := 0.004

/-- Security decrease per weaken thread (heuristic constant). -/
def SEC_DEC_WEAK : ℚ := 0.05

/-- Millisecond gap between finishes inside a batch. -/
def DELTA : ℚ := 250

/-- Millisecond buffer before the base finish time. -/
def BUFFER : ℚ := 1400

/-- Fraction of host RAM kept as a cushion. -/
def MIN_FREE_RAM_FRAC : ℚ := 0.01

/-- `Math.max(1, Math.ceil x)`: a thread count is at least one. -/
def thr (x : ℚ) : ℤ := max 1 (Int.ceil x)

/-- The four stage thread counts of one batch. -/
structure Counts where
  hackThreads : ℤ
  growThreads : ℤ
  weaken1Threads : ℤ
  weaken2Threads : ℤ
deriving DecidableEq

/-- `Math.max(1, Math.ceil(pct / Math.max(1e-12, perHack)))`. -/
def hackThreadsFor (perHack pct : ℚ) : ℤ := thr (pct / max 1e-12 perHack)

/-- Grow threads needed to recover the fraction stolen by `h` hack
threads: hacked fraction clamped to 0.999, growth factor
`1 / max(1e-9, 1 - hackedFraction)`, passed to the external estimator. -/
def growThreadsFor (e : ExtIn) (perHack : ℚ) (h : ℤ) : ℤ :=
  thr (e.growthFn (1 / max 1e-9 (1 - min 0.999 ((h : ℚ) * perHack))))

/-- Weaken threads countering the security added by `h` hack threads. -/
def weaken1For (h : ℤ) : ℤ := thr ((h : ℚ) * SEC_INC_HACK / SEC_DEC_WEAK)

/-- Weaken threads countering the security added by `g` grow threads. -/
def weaken2For (g : ℤ) : ℤ := thr ((g : ℚ) * SEC_INC_GROW / SEC_DEC_WEAK)

/-- The per-thread hack fraction after the best-effort
`ns.formulas.hacking.hackPercent` refinement: the refined value replaces
the heuristic one only when it is positive. -/
def refinedPerHack (e : ExtIn) : ℚ :=
  match e.formulasPerHack with
  | some fp => if 0 < fp then fp else e.perHack
  | none => e.perHack

/-- The unscaled batch plan. Grow and weaken counts derive from the
pre-refinement hack thread count; the hack thread count itself is then
recomputed from the refined per-thread fraction (exactly as the source
refines only `hackThreads`, leaving `growThreads` and the weaken counts
as estimated). -/
def unscaledCounts (e : ExtIn) (pct : ℚ) : Counts :=
  Counts.mk (hackThreadsFor (refinedPerHack e) pct)
    (growThreadsFor e e.perHack (hackThreadsFor e.perHack pct))
    (weaken1For (hackThreadsFor e.perHack pct))
    (weaken2For (growThreadsFor e e.perHack (hackThreadsFor e.perHack pct)))

/-- The re-planned batch at the shrunken per-batch fraction (the yield-cap
branch recomputes every count from the current, possibly refined,
per-thread fraction). -/
def replanCounts (e : ExtIn) (pct : ℚ) : Counts :=
  Counts.mk (hackThreadsFor (refinedPerHack e) pct)
    (growThreadsFor e (refinedPerHack e) (hackThreadsFor (refinedPerHack e) pct))
    (weaken1For (hackThreadsFor (refinedPerHack e) pct))
    (weaken2For (growThreadsFor e (refinedPerHack e) (hackThreadsFor (refinedPerHack e) pct)))

/-- RAM consumed by one batch with the given stage counts. -/
def ramPerBatchOf (e : ExtIn) (c : Counts) : ℚ :=
  (c.hackThreads : ℚ) * e.ramHack + (c.growThreads : ℚ) * e.ramGrow
    + ((c.weaken1Threads : ℚ) + (c.weaken2Threads : ℚ)) * e.ramWeaken

/-- Free RAM on the host after the cushion:
`max(0, maxRam - usedRam - max(0, maxRam * MIN_FREE_RAM_FRAC))`. -/
def freeRam (e : ExtIn) : ℚ :=
  max 0 (e.hostMaxRam - e.hostUsedRam - max 0 (e.hostMaxRam * MIN_FREE_RAM_FRAC))

/-- `Math.max(1, Math.floor(free / ram))`: batches fitting in free RAM. -/
def concOf (free ram : ℚ) : ℤ := max 1 (Int.floor (free / ram))

/-- The unscaled per-batch RAM with the source's non-positivity guard
(`if (ramPerBatch <= 0) ramPerBatch = 1`). -/
def ram0 (e : ExtIn) (pct : ℚ) : ℚ :=
  if ramPerBatchOf e (unscaledCounts e pct) ≤ 0 then 1
  else ramPerBatchOf e (unscaledCounts e pct)

/-- Initial concurrency, before the yield-cap refinement. -/
def conc1 (e : ExtIn) (pct : ℚ) : ℤ := concOf (freeRam e) (ram0 e pct)

/-- Per-batch fraction after the yield-cap refinement: when the aggregate
`concurrency * pct` exceeds the cap, shrink to
`max(0.001, cap / concurrency)`. -/
def pctAfterShrink (e : ExtIn) (pct maxT : ℚ) : ℚ :=
  if maxT < (conc1 e pct : ℚ) * pct then max 0.001 (maxT / (conc1 e pct : ℚ))
  else pct

/-- Stage counts after the yield-cap refinement (re-planned at the
shrunken fraction when the cap was exceeded). -/
def countsAfterShrink (e : ExtIn) (pct maxT : ℚ) : Counts :=
  if maxT < (conc1 e pct : ℚ) * pct then
    replanCounts e (max 0.001 (maxT / (conc1 e pct : ℚ)))
  else unscaledCounts e pct

/-- Per-batch RAM after the yield-cap refinement. -/
def ramAfterShrink (e : ExtIn) (pct maxT : ℚ) : ℚ :=
  if maxT < (conc1 e pct : ℚ) * pct then
    ramPerBatchOf e (countsAfterShrink e pct maxT)
  else ram0 e pct

/-- Concurrency after the yield-cap refinement. -/
def concAfterShrink (e : ExtIn) (pct maxT : ℚ) : ℤ :=
  concOf (freeRam e) (ramAfterShrink e pct maxT)

/-- `Math.max(1, Math.floor(v * scale))`: proportional down-scaling of a
stage count, floored to a minimum of one thread. -/
def scaleRound (scale : ℚ) (v : ℤ) : ℤ := max 1 (Int.floor ((v : ℚ) * scale))

/-- Uniform proportional rescale of all four stage counts. -/
def rescaleCounts (scale : ℚ) (c : Counts) : Counts :=
  Counts.mk (scaleRound scale c.hackThreads) (scaleRound scale c.growThreads)
    (scaleRound scale c.weaken1Threads) (scaleRound scale c.weaken2Threads)

/-- The scale factor applied when one batch does not fit:
`max(0.01, free / ramPerBatch)`. -/
def scaleFactor (e : ExtIn) (pct maxT : ℚ) : ℚ :=
  max 0.01 (freeRam e / ramAfterShrink e pct maxT)

/-- Final stage counts: down-scaled proportionally when the plan does not
fit in free RAM (`concurrency <= 0 || ramPerBatch > freeRam`). -/
def countsFinal (e : ExtIn) (pct maxT : ℚ) : Counts :=
  if concAfterShrink e pct maxT ≤ 0 ∨ freeRam e < ramAfterShrink e pct maxT then
    rescaleCounts (scaleFactor e pct maxT) (countsAfterShrink e pct maxT)
  else countsAfterShrink e pct maxT

/-- Final per-batch RAM (recomputed after a rescale). -/
def ramFinal (e : ExtIn) (pct maxT : ℚ) : ℚ :=
  if concAfterShrink e pct maxT ≤ 0 ∨ freeRam e < ramAfterShrink e pct maxT then
    ramPerBatchOf e (rescaleCounts (scaleFactor e pct maxT) (countsAfterShrink e pct maxT))
  else ramAfterShrink e pct maxT

/-- The final safety clamp of the source:
`concurrency = max(1, min(concurrency, floor(max(1, free / max(1, ram)))))`. -/
def clampConc (free ram : ℚ) (c : ℤ) : ℤ :=
  max 1 (min c (Int.floor (max 1 (free / max 1 ram))))

/-- The result of one packing pass: final stage counts, final per-batch
yield fraction, final per-batch RAM cost, final concurrency. -/
structure PackResult where
  counts : Counts
  pct : ℚ
  ramPerBatch : ℚ
  concurrency : ℤ
deriving DecidableEq

/-- One full Batch Planner / Capacity Packer pass of
`host-batcher-smart.js` for a given per-batch fraction and aggregate
cap. -/
def pack (e : ExtIn) (pct maxT : ℚ) : PackResult :=
  PackResult.mk (countsFinal e pct maxT) (pctAfterShrink e pct maxT) (ramFinal e pct maxT)
    (clampConc (freeRam e) (ramFinal e pct maxT) (concOf (freeRam e) (ramFinal e pct maxT)))

/-- One scheduling cycle as a state transition: the source declares
`BASE_HACK_PCT` outside its scheduling loop and the yield-cap branch
assigns to it, so the (possibly shrunken) per-batch fraction of one cycle
is the starting fraction of the next. -/
def cycleStep (e : ExtIn) (base maxT : ℚ) : PackResult × ℚ :=
  (pack e base maxT, (pack e base maxT).pct)

/-- The longest of the three stage durations. -/
def longest (e : ExtIn) : ℚ := max e.hackTime (max e.growTime e.weakenTime)

/-- Per-batch completion stagger:
`Math.round((b / Math.max(1, concurrency)) * (DELTA * 4))`. -/
def offsetOf (conc b : ℤ) : ℤ := round ((b : ℚ) / ((max 1 conc : ℤ) : ℚ) * (DELTA * 4))

/-- Target completion instant of batch `b`:
`now + longest + BUFFER + offset(b)`. -/
def TofBatch (e : ExtIn) (now : ℚ) (conc b : ℤ) : ℚ :=
  now + longest e + BUFFER + (offsetOf conc b : ℤ)

/-- `Math.max(0, Math.round(T - dur - now))`: the dispatch delay making a
stage of duration `dur` complete at instant `T`. -/
def startDelay (now T dur : ℚ) : ℤ := max 0 (round (T - dur - now))

/-- Completion instant of the extract (hack) stage of batch `b`:
dispatch at `now + startDelay`, completes one duration later. -/
def hackCompletion (e : ExtIn) (now : ℚ) (conc b : ℤ) : ℚ :=
  now + (startDelay now (TofBatch e now conc b) e.hackTime : ℤ) + e.hackTime

/-- Completion instant of the first counter-defense (weaken) stage,
aimed at `T + DELTA`. -/
def weaken1Completion (e : ExtIn) (now : ℚ) (conc b : ℤ) : ℚ :=
  now + (startDelay now (TofBatch e now conc b + DELTA) e.weakenTime : ℤ) + e.weakenTime

/-- Completion instant of the replenish (grow) stage, aimed at
`T + 2 * DELTA`. -/
def growCompletion (e : ExtIn) (now : ℚ) (conc b : ℤ) : ℚ :=
  now + (startDelay now (TofBatch e now conc b + 2 * DELTA) e.growTime : ℤ) + e.growTime

/-- Completion instant of the second counter-defense (weaken) stage,
aimed at `T + 3 * DELTA`. -/
def weaken2Completion (e : ExtIn) (now : ℚ) (conc b : ℤ) : ℚ :=
  now + (startDelay now (TofBatch e now conc b + 3 * DELTA) e.weakenTime : ℤ) + e.weakenTime

/-- The hardcoded fallback target of the Assignment Policy. -/
def defaultTarget : String := "n00dles"

/-- The name of the player's own host, excluded from target selection. -/
def homeName : String := "home"

/-- One reachable server as the Selector observes it: name, maximum
money, hack success chance, required hacking level, root-access flag,
and the number of open ports `nuke` requires. -/
structure Srv where
  name : String
  maxMoney : ℚ
  chance : ℚ
  reqLevel : ℚ
  root : Bool
  portsReq : ℕ
deriving DecidableEq

/-- The world the controller observes: the reachable servers, the
player's hacking level, and how many port-opener programs exist. -/
structure World where
  servers : List Srv
  hackLevel : ℚ
  openers : ℕ
deriving DecidableEq

/-- The `autoNuke` helper: a server that is `home` or already rooted is
untouched; otherwise every available port opener runs and `nuke`
succeeds exactly when enough ports opened (a failing `nuke` throw is
swallowed by the surrounding catch). -/
def autoNuke (openers : ℕ) (s : Srv) : Srv :=
  if s.name = homeName ∨ s.root then s
  else Srv.mk s.name s.maxMoney s.chance s.reqLevel (decide (s.portsReq ≤ openers)) s.portsReq

/-- The server list after the Selector's candidate loop: `autoNuke` runs
on every server with money that is not `home` and is within the player's
hacking level. -/
def nukeStep (w : World) : List Srv :=
  w.servers.map (fun s =>
    if s.name ≠ homeName ∧ 0 < s.maxMoney ∧ s.reqLevel ≤ w.hackLevel then autoNuke w.openers s
    else s)

/-- Candidate score: `maxMoney * chance / (1 + reqLevel / 10)`, zero for
moneyless or zero-chance targets. -/
def candidateScore (s : Srv) : ℚ :=
  if s.maxMoney ≤ 0 ∨ s.chance ≤ 0 then 0
  else s.maxMoney * s.chance / (1 + s.reqLevel / 10)

/-- A scored candidate target. -/
structure Cand where
  s : String
  score : ℚ
  chance : ℚ
deriving DecidableEq

/-- The empty candidate name. -/
def emptyName : String := ""

/-- The placeholder runner-up (`top[1] || { score: 0, chance: 0 }`). -/
def cand0 : Cand := Cand.mk emptyName 0 0

/-- The scored candidate pool: rooted (after the nuke pass), in-level,
money-holding servers with positive chance. -/
def candidates (w : World) : List Cand :=
  ((nukeStep w).filter (fun s =>
      decide (s.name ≠ homeName ∧ 0 < s.maxMoney ∧ s.reqLevel ≤ w.hackLevel
        ∧ s.root = true ∧ 0 < s.chance))).map
    (fun s => Cand.mk s.name (candidateScore s) s.chance)

/-- The top-12 candidate pool, sorted by descending score (stable, as the
JavaScript engine's sort is). -/
def topPool (w : World) : List Cand :=
  ((candidates w).mergeSort (fun a b => decide (b.score ≤ a.score))).take 12

/-- The Selector's output: an optional dominant primary target and an
ordered list of secondary targets. -/
structure Strategy where
  primary : Option String
  secondaries : List String
deriving DecidableEq

/-- The strategy decision of `pickTargetsAndStrategy`: a sole primary
when the best candidate has chance at least 0.65 and dominates the
runner-up by ratio 1.4; otherwise every pool member with chance at least
0.45 becomes a secondary, falling back to the best candidate alone. -/
def pickStrategy (w : World) : Strategy :=
  match topPool w with
  | [] => Strategy.mk none []
  | t1 :: rest =>
    if 0.65 ≤ t1.chance ∧ (rest.headD cand0).score * 1.4 < t1.score then
      Strategy.mk (some t1.s) ((rest.take 7).map Cand.s)
    else
      if ((t1 :: rest).filter (fun t => decide (0.45 ≤ t.chance))).isEmpty then
        Strategy.mk (some t1.s) []
      else
        Strategy.mk none (((t1 :: rest).filter (fun t => decide (0.45 ≤ t.chance))).map Cand.s)

/-- `pickTargetsAndStrategy`: returns the Strategy and the world as the
call leaves it (the candidate loop ran `autoNuke` over the eligible
servers). -/
def pickTargetsAndStrategy (w : World) : Strategy × World :=
  (pickStrategy w, World.mk (nukeStep w) w.hackLevel w.openers)

/-- The fields of a server other than its root flag. -/
def srvShape (s : Srv) : String × ℚ × ℚ × ℚ × ℕ :=
  (s.name, s.maxMoney, s.chance, s.reqLevel, s.portsReq)

/-- `assignTargetForServer`: big hosts take the primary, middle and small
hosts take it with probability 0.7 / 0.35 (modelled by the two sampled
uniform draws `r1`, `r2`); otherwise the host takes the secondary at its
ordinal index modulo the pool size (hosts without an ordinal draw `r3`),
falling back to the primary or the hardcoded default. -/
def assignTargetForServer (ram : ℚ) (ordinal : Option ℕ) (st : Strategy)
    (r1 r2 r3 : ℚ) : String :=
  if st.primary.isSome
      ∧ (1024 ≤ ram ∨ (256 ≤ ram ∧ r1 < 0.7) ∨ (64 ≤ ram ∧ r2 < 0.35)) then
    st.primary.getD defaultTarget
  else if st.secondaries.length = 0 then st.primary.getD defaultTarget
  else
    match ordinal with
    | some n => st.secondaries.getD (n % st.secondaries.length) defaultTarget
    | none =>
      st.secondaries.getD (Int.toNat (Int.floor (r3 * (st.secondaries.length : ℚ))))
        defaultTarget

/-- The values `worker.js` observes in one loop iteration: target
security and its minimum, target money and its maximum, per-thread steal
fraction, hack success chance, the number of worker threads found
running, and the uniform draw deciding the probabilistic hack. -/
structure WorkerObs where
  sec : ℚ
  minSec : ℚ
  money : ℚ
  maxMoney : ℚ
  perThreadSteal : ℚ
  hackChance : ℚ
  threadsRunning : ℤ
  roll : ℚ

/-- The action a worker thread performs in one loop iteration. -/
inductive WAction where
  | weaken : WAction
  | grow : WAction
  | hack : WAction
  | idle : WAction
deriving DecidableEq

/-- The decision cascade of `worker.js`: weaken when security is high,
grow when money is low, weaken when the steal fraction or chance is
non-positive or the chance is below 0.20, grow below the hack-safe
threshold, then probabilistically hack, else a maintenance grow, weaken
or idle sleep. -/
def workerDecide (o : WorkerObs) : WAction :=
  if o.minSec + 2 < o.sec then WAction.weaken
  else if o.money < o.maxMoney * 0.85 then WAction.grow
  else if o.perThreadSteal ≤ 0 ∨ o.hackChance ≤ 0 then WAction.weaken
  else if o.hackChance < 0.2 then WAction.weaken
  else if o.money < o.maxMoney * 0.9 then WAction.grow
  else
    if o.roll < (if 200 < max 1 o.threadsRunning then
        min 1 ((max 1 (Int.ceil (0.02 / o.perThreadSteal)) : ℤ) / ((max 1 o.threadsRunning : ℤ) : ℚ)) * 0.9
      else
        min 1 ((max 1 (Int.ceil (0.02 / o.perThreadSteal)) : ℤ) / ((max 1 o.threadsRunning : ℤ) : ℚ))) then
      WAction.hack
    else if o.money < o.maxMoney * 0.97 then WAction.grow
    else if o.minSec + 0.5 < o.sec then WAction.weaken
    else WAction.idle

/-- `Number(arg) || default`: the parsed numeric argument, modelled as
`none` when missing or not a number (both parse to NaN, which is falsy)
and `some q` otherwise; the value 0 is falsy and also yields the
default. -/
def jsOrDefault (v : Option ℚ) (d : ℚ) : ℚ :=
  match v with
  | none => d
  | some q => if q = 0 then d else q

/-- The effective per-batch yield fraction of the invocation surface:
`Math.min(0.25, Number(args[1]) || 0.02)`. -/
def effHackPct (a : Option ℚ) : ℚ := min 0.25 (jsOrDefault a 0.02)

/-- The effective aggregate yield cap of the invocation surface:
`Math.min(0.5, Number(args[2]) || 0.20)`. -/
def effMaxTotalPct (a : Option ℚ) : ℚ := min 0.5 (jsOrDefault a 0.2)

/-- Inputs matching the spec's worked example with free capacity 2000:
per-unit yield 0.01 and a 50-unit minimal batch (script RAM sizes 20, 4
and 3; the growth estimator reports no grow threads needed). -/
def eShrink2000 : ExtIn := ExtIn.mk 0.01 none (fun _ => 0) 20 4 3 4000 1960 100 150 200

/-- Inputs on which the one-pass yield shrink is defeated: unit script
RAM sizes and free capacity 200, so the re-planned cheaper batch raises
concurrency from 40 to 50. -/
def eYieldUp : ExtIn := ExtIn.mk 0.01 none (fun _ => 0) 1 1 1 1000 790 100 150 200

/-- Inputs matching the spec's worked example with free capacity 500:
concurrency 10, aggregate yield exactly at the cap, no shrink. -/
def eExample500 : ExtIn := ExtIn.mk 0.01 none (fun _ => 0) 20 4 3 1000 490 100 150 200

/-- Inputs on which the carried per-batch fraction changes the next
cycle's output: per-thread yield 0.001, unit RAM sizes, free capacity
920. -/
def eCarried : ExtIn := ExtIn.mk 0.001 none (fun _ => 0) 1 1 1 1000 70 100 150 200

/-- Degenerate inputs: per-thread hack fraction exactly zero. -/
def eZeroYield : ExtIn := ExtIn.mk 0 none (fun _ => 0) 1 1 1 1000 70 100 150 200

/-- Inputs with zero free capacity (the host is fully used), so even one
minimal batch cannot fit. -/
def eCap0 : ExtIn := ExtIn.mk 0.01 none (fun _ => 0) 1 1 1 8 8 100 150 200

/-- Inputs with a fractional-millisecond hack duration (100.3 ms). -/
def eFracTimes : ExtIn := ExtIn.mk 0.01 none (fun _ => 0) 1 1 1 8 0 100.3 150 200

/-- A worker observation with a non-positive per-thread steal fraction
on a replenished, low-security target. -/
def oDegenerate : WorkerObs := WorkerObs.mk 1 1 0 100 0 0.5 1 0.5

/-- The name of a nukeable example server. -/
def nameJoes : String := "joesguns"

/-- The name of an already-rooted example server. -/
def nameSigma : String := "sigma-cosmetics"

/-- The first example secondary target. -/
def nameAlpha : String := "alpha-ent"

/-- The second example secondary target. -/
def nameOmega : String := "omega-net"

/-- The third example secondary target. -/
def nameZb : String := "zb-def"

/-- A world holding one unrooted, nukeable candidate server. -/
def wNuke : World :=
  World.mk (List.cons (Srv.mk nameJoes 100 0.5 10 false 0) List.nil) 100 0

/-- A world holding one already-rooted candidate server. -/
def wRooted : World :=
  World.mk (List.cons (Srv.mk nameSigma 100 0.5 10 true 0) List.nil) 100 0

/-- A three-secondary strategy with no primary. -/
def stSecs : Strategy :=
  Strategy.mk none (List.cons nameAlpha (List.cons nameOmega (List.cons nameZb List.nil)))

/-- All four stage counts of a batch are at least one. -/
def countsMin1 (c : Counts) : Prop :=
  1 ≤ c.hackThreads ∧ 1 ≤ c.growThreads ∧ 1 ≤ c.weaken1Threads ∧ 1 ≤ c.weaken2Threads

theorem one_le_thr (x : ℚ) : 1 ≤ thr x := le_max_left 1 (Int.ceil x)

theorem one_le_scaleRound (s : ℚ) (v : ℤ) : 1 ≤ scaleRound s v :=
  le_max_left 1 (Int.floor ((v : ℚ) * s))

theorem countsMin1_unscaled (e : ExtIn) (pct : ℚ) : countsMin1 (unscaledCounts e pct) :=
  ⟨one_le_thr _, one_le_thr _, one_le_thr _, one_le_thr _⟩

theorem countsMin1_replan (e : ExtIn) (pct : ℚ) : countsMin1 (replanCounts e pct) :=
  ⟨one_le_thr _, one_le_thr _, one_le_thr _, one_le_thr _⟩

theorem countsMin1_rescale (s : ℚ) (c : Counts) : countsMin1 (rescaleCounts s c) :=
  ⟨one_le_scaleRound _ _, one_le_scaleRound _ _, one_le_scaleRound _ _, one_le_scaleRound _ _⟩

theorem countsMin1_final (e : ExtIn) (pct maxT : ℚ) : countsMin1 (countsFinal e pct maxT) := by
  unfold countsFinal countsAfterShrink
  split_ifs
  all_goals first
    | exact countsMin1_rescale _ _
    | exact countsMin1_replan _ _
    | exact countsMin1_unscaled _ _

theorem one_le_clampConc (free ram : ℚ) (c : ℤ) : 1 ≤ clampConc free ram c :=
  le_max_left 1 _

/-- C6: for every input (including plans produced through the yield-cap
shrink and the proportional down-scale), each of the four stage thread
counts of the final plan is an integer at least 1, and the final
concurrency is at least 1 — the packer never schedules a zero-thread
stage and never refuses to schedule. -/
theorem stage_counts_and_concurrency_at_least_one (e : ExtIn) (pct maxT : ℚ) :
    1 ≤ (pack e pct maxT).counts.hackThreads ∧
    1 ≤ (pack e pct maxT).counts.growThreads ∧
    1 ≤ (pack e pct maxT).counts.weaken1Threads ∧
    1 ≤ (pack e pct maxT).counts.weaken2Threads ∧
    1 ≤ (pack e pct maxT).concurrency := by
  obtain ⟨h1, h2, h3, h4⟩ := countsMin1_final e pct maxT
  exact ⟨h1, h2, h3, h4, one_le_clampConc _ _ _⟩

set_option maxRecDepth 4000 in
/-- C4: with per-unit extract yield 0.01, configured fraction 0.02,
aggregate cap 0.20 and a 50-unit per-batch cost on a host with 2000
units free, the packer first sees concurrency 40 and aggregate yield
0.8 exceeding the cap, shrinks the fraction to 0.20 / 40 = 0.005, and
the re-run planner produces extractCount 1 and a 30-unit batch, from
which concurrency is recomputed as floor(2000 / 30) = 66. -/
theorem shrink_example_replans_extract_count :
    freeRam eShrink2000 = 2000 ∧
    conc1 eShrink2000 0.02 = 40 ∧
    (conc1 eShrink2000 0.02 : ℚ) * 0.02 = 0.8 ∧
    (0.2 : ℚ) < 0.8 ∧
    (pack eShrink2000 0.02 0.2).pct = 0.005 ∧
    (pack eShrink2000 0.02 0.2).counts.hackThreads = 1 ∧
    (pack eShrink2000 0.02 0.2).ramPerBatch = 30 ∧
    (30 : ℚ) < 50 ∧
    (pack eShrink2000 0.02 0.2).concurrency = 66 ∧
    concOf (freeRam eShrink2000) 30 = 66 := by
  refine ⟨?_, ?_, ?_, ?_, ?_, ?_, ?_, ?_, ?_, ?_⟩ <;> with_unfolding_all decide

set_option maxRecDepth 8000 in
/-- C1 counterexample: on a fully used host (free capacity 0) the final
plan still has concurrency 1 with a positive per-batch cost (4 units), so
`concurrency * perBatchCapacityCost ≤ freeCapacity` fails exactly in the
case the claim includes, where even one minimal batch's cost exceeds the
free capacity. -/
theorem capacity_invariant_fails_on_exhaustion :
    freeRam eCap0 = 0 ∧
    (pack eCap0 0.02 0.2).concurrency = 1 ∧
    (pack eCap0 0.02 0.2).ramPerBatch = 4 ∧
    freeRam eCap0 <
      ((pack eCap0 0.02 0.2).concurrency : ℚ) * (pack eCap0 0.02 0.2).ramPerBatch := by
  refine ⟨?_, ?_, ?_, ?_⟩ <;> with_unfolding_all decide

set_option maxRecDepth 8000 in
/-- C2 counterexample: with per-thread yield 0.01, unit script RAM sizes
and free capacity 200, the shrink sets the fraction to 0.20/40 = 0.005,
but the re-planned batch costs 4 instead of 5, so concurrency rises to
50 and the final aggregate yield is 50 * 0.005 = 0.25, exceeding the cap
0.20 by 0.05 — far beyond any epsilon tolerance (shown here against
epsilon = 0.001, the code's own fraction floor). -/
theorem yield_cap_exceeded_after_replan :
    (pack eYieldUp 0.02 0.2).concurrency = 50 ∧
    (pack eYieldUp 0.02 0.2).pct = 0.005 ∧
    (0.2 : ℚ) + 0.001 <
      ((pack eYieldUp 0.02 0.2).concurrency : ℚ) * (pack eYieldUp 0.02 0.2).pct := by
  refine ⟨?_, ?_, ?_⟩ <;> with_unfolding_all decide

set_option maxRecDepth 8000 in
/-- C5 counterexample: the yield-cap branch assigns the shrunken fraction
to the loop-external `BASE_HACK_PCT`, so the next cycle starts from it.
With identical observed target and host state on both cycles, the first
cycle emits 5 hack threads at concurrency 115 while the second emits 2
hack threads at concurrency 184 — scheduling state is carried across
cycles and changes the emitted plan. -/
theorem carried_pct_changes_next_cycle_output :
    ((cycleStep eCarried 0.02 0.2).1.counts.hackThreads = 5 ∧
      (cycleStep eCarried 0.02 0.2).1.concurrency = 115) ∧
    ((cycleStep eCarried ((cycleStep eCarried 0.02 0.2).2) 0.2).1.counts.hackThreads = 2 ∧
      (cycleStep eCarried ((cycleStep eCarried 0.02 0.2).2) 0.2).1.concurrency = 184) ∧
    (cycleStep eCarried ((cycleStep eCarried 0.02 0.2).2) 0.2).1 ≠
      (cycleStep eCarried 0.02 0.2).1 := by
  refine ⟨⟨?_, ?_⟩, ⟨?_, ?_⟩, ?_⟩ <;> with_unfolding_all decide

set_option maxRecDepth 8000 in
/-- C7 counterexample: at a per-thread hack fraction of exactly zero the
Batch Planner does not substitute a defensive action for extraction — it
still emits an extract stage, here with 200000000 hack threads after the
proportional down-scale (every stage with a positive count is executed by
the dispatch loop). -/
theorem planner_still_extracts_on_degenerate_yield :
    eZeroYield.perHack = 0 ∧
    (pack eZeroYield 0.02 0.2).counts.hackThreads = 200000000 ∧
    1 ≤ (pack eZeroYield 0.02 0.2).counts.hackThreads := by
  refine ⟨?_, ?_, ?_⟩ <;> with_unfolding_all decide

/-- C10 counterexample: a strictly negative numeric argument is truthy in
`Number(args[1]) || 0.02` and below the upper clamp, so it passes through
and the effective per-batch yield fraction is negative — the invocation
surface is not always positive. -/
theorem negative_arg_passes_through :
    effHackPct (some (-1)) = -1 ∧ effHackPct (some (-1)) < 0 := by
  refine ⟨?_, ?_⟩ <;> with_unfolding_all decide

/-- C8 counterexample: the Selector's candidate loop runs `autoNuke`, so
selection on a world holding an unrooted nukeable server flips that
server's root-access flag — the selection mutates observable state. -/
theorem selector_mutates_root_state :
    (pickTargetsAndStrategy wNuke).2 ≠ wNuke ∧
    ((pickTargetsAndStrategy wNuke).2.servers[0]?).map Srv.root = some true ∧
    (wNuke.servers[0]?).map Srv.root = some false := by
  refine ⟨?_, ?_, ?_⟩ <;> with_unfolding_all decide

/-- C3 counterexample: with a fractional-millisecond hack duration
(100.3 ms) the extract stage completes at 1600.3 while the first
counter-defense completes at 1850, a gap of 249.7 ms — the consecutive
completions do not differ by exactly DELTA for arbitrary positive stage
durations (the rounding of the start delay loses the fractional part). -/
theorem completion_gap_not_exact_for_fractional_durations :
    hackCompletion eFracTimes 0 1 0 = 16003 / 10 ∧
    weaken1Completion eFracTimes 0 1 0 = 1850 ∧
    weaken1Completion eFracTimes 0 1 0 - hackCompletion eFracTimes 0 1 0 ≠ DELTA := by
  refine ⟨?_, ?_, ?_⟩ <;>
    norm_num [hackCompletion, weaken1Completion, startDelay, TofBatch, offsetOf, longest,
      eFracTimes, DELTA, BUFFER, round_eq, Int.floor_eq_iff, max_def]

theorem clampConc_mul_le (free ram : ℚ) (hr : 0 < ram) (hfit : ram ≤ free) :
    ((clampConc free ram (concOf free ram) : ℤ) : ℚ) * ram ≤ free := by
  have hdiv1 : (1 : ℚ) ≤ free / ram := (one_le_div hr).mpr hfit
  have hfl : (1 : ℤ) ≤ Int.floor (free / ram) := by
    rw [Int.le_floor]
    exact_mod_cast hdiv1
  have hconc : concOf free ram = Int.floor (free / ram) := max_eq_right hfl
  have hX : (1 : ℤ) ≤ Int.floor (max 1 (free / max 1 ram)) := by
    rw [Int.le_floor]
    exact_mod_cast le_max_left 1 (free / max 1 ram)
  have hclamp : clampConc free ram (concOf free ram) ≤ Int.floor (free / ram) := by
    unfold clampConc
    rw [max_eq_right (le_min (hconc ▸ hfl) hX), hconc]
    exact min_le_left _ _
  calc ((clampConc free ram (concOf free ram) : ℤ) : ℚ) * ram
      ≤ ((Int.floor (free / ram) : ℤ) : ℚ) * ram := by
        apply mul_le_mul_of_nonneg_right _ (le_of_lt hr)
        exact_mod_cast hclamp
    _ ≤ (free / ram) * ram := mul_le_mul_of_nonneg_right (Int.floor_le _) (le_of_lt hr)
    _ = free := div_mul_cancel₀ free (ne_of_gt hr)

/-- C1 (amended): whenever the final per-batch capacity cost is positive
and itself fits within the host's free capacity, the final concurrency
satisfies `concurrency * perBatchCapacityCost ≤ freeCapacity`; when even
the minimal (rescaled) batch exceeds the free capacity, the packer
deliberately schedules one batch anyway and the bound does not hold. -/
theorem capacity_invariant_when_batch_fits (e : ExtIn) (pct maxT : ℚ)
    (hpos : 0 < (pack e pct maxT).ramPerBatch)
    (hfit : (pack e pct maxT).ramPerBatch ≤ freeRam e) :
    ((pack e pct maxT).concurrency : ℚ) * (pack e pct maxT).ramPerBatch ≤ freeRam e := by
  have hrepr : (pack e pct maxT).concurrency =
      clampConc (freeRam e) ((pack e pct maxT).ramPerBatch)
        (concOf (freeRam e) ((pack e pct maxT).ramPerBatch)) := rfl
  rw [hrepr]
  exact clampConc_mul_le (freeRam e) ((pack e pct maxT).ramPerBatch) hpos hfit

set_option maxRecDepth 8000 in
/-- C1 witness: on the 2000-unit example host the shrunken 30-unit batch
fits, and the packed 66 concurrent batches occupy 1980 ≤ 2000 units. -/
theorem capacity_invariant_when_batch_fits_witness :
    ((pack eShrink2000 0.02 0.2).concurrency : ℚ) * (pack eShrink2000 0.02 0.2).ramPerBatch
      ≤ freeRam eShrink2000 :=
  capacity_invariant_when_batch_fits eShrink2000 0.02 0.2
    (by with_unfolding_all decide) (by with_unfolding_all decide)

/-- C2 (amended): after the yield-cap refinement,
`concurrency * perBatchYieldFraction ≤ aggregateYieldCap` holds for every
nonnegative configured fraction provided the final concurrency does not
exceed the concurrency observed before the shrink and the 0.001 fraction
floor does not engage (`0.001 * initialConcurrency ≤ cap`); the one-pass
shrink is otherwise defeated when the re-planned cheaper batch raises
concurrency, and then the product can exceed the cap (no epsilon
tolerance short of that excess rescues the original claim). -/
theorem yield_cap_when_concurrency_not_increased (e : ExtIn) (pct maxT : ℚ)
    (hp : 0 ≤ pct)
    (hfloor : 0.001 * ((conc1 e pct : ℤ) : ℚ) ≤ maxT)
    (hmono : ((pack e pct maxT).concurrency : ℚ) ≤ ((conc1 e pct : ℤ) : ℚ)) :
    ((pack e pct maxT).concurrency : ℚ) * (pack e pct maxT).pct ≤ maxT := by
  have hc1 : (1 : ℤ) ≤ conc1 e pct := le_max_left 1 _
  have hc1q : (1 : ℚ) ≤ ((conc1 e pct : ℤ) : ℚ) := by exact_mod_cast hc1
  have hc1pos : (0 : ℚ) < ((conc1 e pct : ℤ) : ℚ) := lt_of_lt_of_le one_pos hc1q
  have hcfq : (0 : ℚ) ≤ ((pack e pct maxT).concurrency : ℚ) := by
    have h1 := one_le_clampConc (freeRam e) (ramFinal e pct maxT)
      (concOf (freeRam e) (ramFinal e pct maxT))
    have : (1 : ℚ) ≤ ((pack e pct maxT).concurrency : ℚ) := by exact_mod_cast h1
    linarith
  have hpct : (pack e pct maxT).pct = pctAfterShrink e pct maxT := rfl
  rw [hpct]
  unfold pctAfterShrink
  by_cases hb : maxT < ((conc1 e pct : ℤ) : ℚ) * pct
  · rw [if_pos hb]
    have hdiv : (0.001 : ℚ) ≤ maxT / ((conc1 e pct : ℤ) : ℚ) :=
      (le_div_iff₀ hc1pos).mpr (by linarith [hfloor])
    rw [max_eq_right hdiv]
    have hdivpos : (0 : ℚ) ≤ maxT / ((conc1 e pct : ℤ) : ℚ) := by linarith
    calc ((pack e pct maxT).concurrency : ℚ) * (maxT / ((conc1 e pct : ℤ) : ℚ))
        ≤ ((conc1 e pct : ℤ) : ℚ) * (maxT / ((conc1 e pct : ℤ) : ℚ)) :=
          mul_le_mul_of_nonneg_right hmono hdivpos
      _ = maxT := mul_div_cancel₀ maxT (ne_of_gt hc1pos)
  · rw [if_neg hb]
    have hle : ((conc1 e pct : ℤ) : ℚ) * pct ≤ maxT := not_lt.mp hb
    calc ((pack e pct maxT).concurrency : ℚ) * pct
        ≤ ((conc1 e pct : ℤ) : ℚ) * pct := mul_le_mul_of_nonneg_right hmono hp
      _ ≤ maxT := hle

set_option maxRecDepth 8000 in
/-- C2 witness: the spec's 500-unit example — concurrency 10 at fraction
0.02 sits exactly at the 0.20 cap, the shrink does not raise concurrency,
and the bound holds with equality. -/
theorem yield_cap_when_concurrency_not_increased_witness :
    ((pack eExample500 0.02 0.2).concurrency : ℚ) * (pack eExample500 0.02 0.2).pct ≤ 0.2 :=
  yield_cap_when_concurrency_not_increased eExample500 0.02 0.2
    (by with_unfolding_all decide) (by with_unfolding_all decide)
    (by with_unfolding_all decide)

/-- C5 (amended): each planning cycle is a deterministic function of the
freshly observed target/host state together with the carried per-batch
yield fraction: two cycles with identical observations and identical
carried fraction (and cap) emit identical stage counts, concurrency and
fraction, and hand the same fraction to the next cycle. The carried
fraction itself, however, is scheduling state that survives the cycle
(see the counterexample). -/
theorem cycle_deterministic_given_carried_pct (e₁ e₂ : ExtIn) (b₁ b₂ m₁ m₂ : ℚ)
    (he : e₁ = e₂) (hb : b₁ = b₂) (hm : m₁ = m₂) :
    cycleStep e₁ b₁ m₁ = cycleStep e₂ b₂ m₂ := by
  rw [he, hb, hm]

set_option maxRecDepth 8000 in
/-- C5 witness: the two-cycle example input run twice with the same
carried fraction gives the same result. -/
theorem cycle_deterministic_given_carried_pct_witness :
    cycleStep eCarried 0.02 0.2 = cycleStep eCarried 0.02 0.2 :=
  cycle_deterministic_given_carried_pct eCarried eCarried 0.02 0.02 0.2 0.2 rfl rfl rfl

/-- C7 (amended): on degenerate numeric inputs nothing raises, but the
substitution of a defensive action happens in the worker loop, not in
the Batch Planner: whenever the observed per-thread steal fraction or
success chance is non-positive, `worker.js` performs a weaken or a grow
and never a hack, while the Batch Planner (a total function: every
divisor is clamped away from zero) still emits an extract stage of at
least one thread. -/
theorem worker_substitutes_defense_and_planner_total :
    (∀ o : WorkerObs, o.perThreadSteal ≤ 0 ∨ o.hackChance ≤ 0 →
      workerDecide o = WAction.weaken ∨ workerDecide o = WAction.grow) ∧
    (∀ (e : ExtIn) (pct maxT : ℚ), 1 ≤ (pack e pct maxT).counts.hackThreads) := by
  constructor
  · intro o hdeg
    unfold workerDecide
    by_cases h1 : o.minSec + 2 < o.sec
    · rw [if_pos h1]
      exact Or.inl rfl
    · rw [if_neg h1]
      by_cases h2 : o.money < o.maxMoney * 0.85
      · rw [if_pos h2]
        exact Or.inr rfl
      · rw [if_neg h2, if_pos hdeg]
        exact Or.inl rfl
  · intro e pct maxT
    exact (countsMin1_final e pct maxT).1

/-- C7 witness: a worker thread observing a zero per-thread steal
fraction does not hack. -/
theorem worker_substitutes_defense_and_planner_total_witness :
    workerDecide oDegenerate = WAction.weaken ∨ workerDecide oDegenerate = WAction.grow :=
  worker_substitutes_defense_and_planner_total.1 oDegenerate
    (Or.inl (by with_unfolding_all decide))

/-- C9: for every non-empty secondaries list and every host carrying an
ordinal index, whenever the primary path is not chosen (for any random
draws) the Assignment Policy returns the secondary at position
`ordinal mod length`, so repeated calls with the same host and list give
the same secondary. -/
theorem assignment_stable_hash (ram : ℚ) (n : ℕ) (st : Strategy) (r1 r2 r3 s1 s2 s3 : ℚ)
    (hsec : st.secondaries ≠ [])
    (h1 : ¬(st.primary.isSome
      ∧ (1024 ≤ ram ∨ (256 ≤ ram ∧ r1 < 0.7) ∨ (64 ≤ ram ∧ r2 < 0.35))))
    (h2 : ¬(st.primary.isSome
      ∧ (1024 ≤ ram ∨ (256 ≤ ram ∧ s1 < 0.7) ∨ (64 ≤ ram ∧ s2 < 0.35)))) :
    assignTargetForServer ram (some n) st r1 r2 r3
      = st.secondaries.getD (n % st.secondaries.length) defaultTarget ∧
    assignTargetForServer ram (some n) st r1 r2 r3
      = assignTargetForServer ram (some n) st s1 s2 s3 := by
  have hlen : ¬(st.secondaries.length = 0) := by
    simpa [List.length_eq_zero] using hsec
  unfold assignTargetForServer
  rw [if_neg h1, if_neg h2, if_neg hlen]
  exact ⟨rfl, rfl⟩

/-- C9 witness: an ordinal-4 host with three secondaries and no primary
is assigned the secondary at index 4 mod 3 = 1. -/
theorem assignment_stable_hash_witness :
    assignTargetForServer 8 (some 4) stSecs 0 0 0
      = stSecs.secondaries.getD (4 % stSecs.secondaries.length) defaultTarget :=
  (assignment_stable_hash 8 4 stSecs 0 0 0 1 1 1 (by with_unfolding_all decide)
    (by with_unfolding_all decide) (by with_unfolding_all decide)).1

/-- C10 (amended): the effective per-batch yield fraction never exceeds
0.25 and the aggregate cap never exceeds 0.5; a missing, non-numeric or
zero argument yields the defaults 0.02 and 0.20; and the effective
fraction is positive for every nonnegative parsed argument — but a
strictly negative numeric argument passes through (there is no lower
clamp), so the configuration is not always positive. -/
theorem config_clamp_behavior :
    (∀ a : Option ℚ, effHackPct a ≤ 0.25 ∧ effMaxTotalPct a ≤ 0.5) ∧
    effHackPct none = 0.02 ∧ effHackPct (some 0) = 0.02 ∧
    effMaxTotalPct none = 0.2 ∧ effMaxTotalPct (some 0) = 0.2 ∧
    (∀ q : ℚ, 0 ≤ q → 0 < effHackPct (some q)) := by
  refine ⟨fun a => ⟨min_le_left _ _, min_le_left _ _⟩, ?_, ?_, ?_, ?_, ?_⟩
  · simp only [effHackPct, jsOrDefault]
    exact min_eq_right (by norm_num)
  · simp only [effHackPct, jsOrDefault, if_pos rfl]
    exact min_eq_right (by norm_num)
  · simp only [effMaxTotalPct, jsOrDefault]
    exact min_eq_right (by norm_num)
  · simp only [effMaxTotalPct, jsOrDefault, if_pos rfl]
    exact min_eq_right (by norm_num)
  · intro q hq
    simp only [effHackPct, jsOrDefault]
    by_cases h0 : q = 0
    · rw [if_pos h0, lt_min_iff]
      norm_num
    · rw [if_neg h0, lt_min_iff]
      have hqpos : 0 < q := lt_of_le_of_ne hq (Ne.symm h0)
      norm_num [hqpos]

/-- C10 witness: a positive in-range argument is kept and positive. -/
theorem config_clamp_behavior_witness : 0 < effHackPct (some 0.1) :=
  config_clamp_behavior.2.2.2.2.2 0.1 (by norm_num)

theorem autoNuke_shape (k : ℕ) (s : Srv) : srvShape (autoNuke k s) = srvShape s := by
  unfold autoNuke
  split_ifs <;> rfl

theorem autoNuke_root_mono (k : ℕ) (s : Srv) (h : s.root = true) :
    (autoNuke k s).root = true := by
  unfold autoNuke
  rw [if_pos (Or.inr h)]
  exact h

theorem nukeStep_shape (w : World) :
    (nukeStep w).map srvShape = w.servers.map srvShape := by
  unfold nukeStep
  rw [List.map_map]
  apply List.map_congr_left
  intro s _
  simp only [Function.comp_apply]
  split_ifs with h
  · exact autoNuke_shape w.openers s
  · rfl

theorem nukeStep_root_mono (w : World) (i : ℕ)
    (h : (w.servers[i]?).map Srv.root = some true) :
    ((nukeStep w)[i]?).map Srv.root = some true := by
  unfold nukeStep
  rw [List.getElem?_map]
  cases hg : w.servers[i]? with
  | none =>
    rw [hg] at h
    exact absurd h (by simp)
  | some s =>
    rw [hg] at h
    have hroot : s.root = true := Option.some.inj h
    refine congrArg some ?_
    show (if s.name ≠ homeName ∧ 0 < s.maxMoney ∧ s.reqLevel ≤ w.hackLevel then
        autoNuke w.openers s else s).root = true
    split_ifs with hcond
    · exact autoNuke_root_mono w.openers s hroot
    · exact hroot

/-- C8 (amended): the Target Selector is deterministic — identical
snapshots give identical Strategies — and its only mutation of
observable state is the root-unlock attempt its candidate loop performs:
every server field other than the root flag, the server order, and the
player state are unchanged, and root access is only ever gained, never
revoked. -/
theorem selector_deterministic_and_frame :
    (∀ w₁ w₂ : World, w₁ = w₂ →
      pickTargetsAndStrategy w₁ = pickTargetsAndStrategy w₂) ∧
    (∀ w : World,
      (pickTargetsAndStrategy w).2.servers.map srvShape = w.servers.map srvShape ∧
      (pickTargetsAndStrategy w).2.hackLevel = w.hackLevel ∧
      (pickTargetsAndStrategy w).2.openers = w.openers ∧
      ∀ i : ℕ, (w.servers[i]?).map Srv.root = some true →
        ((pickTargetsAndStrategy w).2.servers[i]?).map Srv.root = some true) := by
  constructor
  · intro w₁ w₂ hw
    rw [hw]
  · intro w
    refine ⟨nukeStep_shape w, rfl, rfl, fun i h => nukeStep_root_mono w i h⟩

/-- C8 witness: a world whose only candidate is already rooted keeps its
root flag through a selection call. -/
theorem selector_deterministic_and_frame_witness :
    ((pickTargetsAndStrategy wRooted).2.servers[0]?).map Srv.root = some true :=
  (selector_deterministic_and_frame.2 wRooted).2.2.2 0 (by with_unfolding_all decide)

theorem intCast_max (a c : ℤ) : ((max a c : ℤ) : ℚ) = max (a : ℚ) (c : ℚ) := by
  rcases le_total a c with h | h
  · rw [max_eq_right h, max_eq_right (by exact_mod_cast h : (a : ℚ) ≤ (c : ℚ))]
  · rw [max_eq_left h, max_eq_left (by exact_mod_cast h : (c : ℚ) ≤ (a : ℚ))]

/-- C3 (amended): for every valid plan (batch index within the
concurrency, positive stage durations) the per-stage completion instants
implied by the emitted start delays are strictly increasing in the order
extract, counterA, replenish, counterB; and when the three stage
durations are whole milliseconds the consecutive completions differ by
exactly DELTA. For fractional durations the rounding of each start delay
shifts a gap by less than one millisecond, which preserves the strict
order but not exactness. -/
theorem completion_order_strict_and_exact (e : ExtIn) (now : ℚ) (conc b : ℤ)
    (hc : 1 ≤ conc) (hb0 : 0 ≤ b) (hbc : b < conc)
    (hh : 0 < e.hackTime) (hg : 0 < e.growTime) (hw : 0 < e.weakenTime) :
    (hackCompletion e now conc b < weaken1Completion e now conc b ∧
     weaken1Completion e now conc b < growCompletion e now conc b ∧
     growCompletion e now conc b < weaken2Completion e now conc b) ∧
    ((∃ nh : ℤ, e.hackTime = (nh : ℚ)) → (∃ ng : ℤ, e.growTime = (ng : ℚ)) →
     (∃ nw : ℤ, e.weakenTime = (nw : ℚ)) →
      (weaken1Completion e now conc b - hackCompletion e now conc b = DELTA ∧
       growCompletion e now conc b - weaken1Completion e now conc b = DELTA ∧
       weaken2Completion e now conc b - growCompletion e now conc b = DELTA)) := by
  have hB : BUFFER = (1400 : ℚ) := rfl
  have hD : DELTA = (250 : ℚ) := rfl
  have h2d : 2 * DELTA = (500 : ℚ) := by
    rw [hD]
    norm_num
  have h3d : 3 * DELTA = (750 : ℚ) := by
    rw [hD]
    norm_num
  set off : ℚ := ((offsetOf conc b : ℤ) : ℚ) with hoffdef
  have hoffq : (0 : ℚ) ≤ off := by
    have hoz : (0 : ℤ) ≤ offsetOf conc b := by
      unfold offsetOf
      rw [round_eq]
      apply Int.le_floor.mpr
      have hbq : (0 : ℚ) ≤ (b : ℚ) := by exact_mod_cast hb0
      have hden : (1 : ℚ) ≤ max 1 ((conc : ℤ) : ℚ) := le_max_left 1 _
      have hmul : (0 : ℚ) ≤ (b : ℚ) / max 1 ((conc : ℤ) : ℚ) * (DELTA * 4) := by
        apply mul_nonneg
        · exact div_nonneg hbq (by linarith)
        · rw [hD]
          norm_num
      push_cast
      push_cast at hmul
      linarith
    rw [hoffdef]
    exact_mod_cast hoz
  have hLh : e.hackTime ≤ longest e := le_max_left _ _
  have hLg : e.growTime ≤ longest e :=
    le_trans (le_max_left e.growTime e.weakenTime) (le_max_right e.hackTime _)
  have hLw : e.weakenTime ≤ longest e :=
    le_trans (le_max_right e.growTime e.weakenTime) (le_max_right e.hackTime _)
  have hTof : TofBatch e now conc b = now + longest e + BUFFER + off := rfl
  have key : ∀ k d : ℚ, 0 ≤ k → d ≤ longest e →
      startDelay now (TofBatch e now conc b + k) d
        = round (longest e + BUFFER + off + k - d) := by
    intro k d hk hd
    unfold startDelay
    have harg : TofBatch e now conc b + k - d - now = longest e + BUFFER + off + k - d := by
      rw [hTof]
      ring
    rw [harg]
    apply max_eq_right
    rw [round_eq]
    apply Int.le_floor.mpr
    push_cast
    rw [hB]
    linarith
  have k0 := key 0 e.hackTime le_rfl hLh
  have k1 := key 250 e.weakenTime (by norm_num) hLw
  have k2 := key 500 e.growTime (by norm_num) hLg
  have k3 := key 750 e.weakenTime (by norm_num) hLw
  simp only [add_zero] at k0
  have hC0 : hackCompletion e now conc b
      = now + ((round (longest e + BUFFER + off - e.hackTime) : ℤ) : ℚ) + e.hackTime := by
    unfold hackCompletion
    rw [k0]
  have hC1 : weaken1Completion e now conc b
      = now + ((round (longest e + BUFFER + off + 250 - e.weakenTime) : ℤ) : ℚ)
        + e.weakenTime := by
    unfold weaken1Completion
    rw [hD, k1]
  have hC2 : growCompletion e now conc b
      = now + ((round (longest e + BUFFER + off + 500 - e.growTime) : ℤ) : ℚ)
        + e.growTime := by
    unfold growCompletion
    rw [h2d, k2]
  have hC3 : weaken2Completion e now conc b
      = now + ((round (longest e + BUFFER + off + 750 - e.weakenTime) : ℤ) : ℚ)
        + e.weakenTime := by
    unfold weaken2Completion
    rw [h3d, k3]
  have r0 := abs_sub_round (longest e + BUFFER + off - e.hackTime)
  have r1 := abs_sub_round (longest e + BUFFER + off + 250 - e.weakenTime)
  have r2 := abs_sub_round (longest e + BUFFER + off + 500 - e.growTime)
  have r3 := abs_sub_round (longest e + BUFFER + off + 750 - e.weakenTime)
  rw [abs_le] at r0 r1 r2 r3
  constructor
  · refine ⟨?_, ?_, ?_⟩
    · rw [hC0, hC1]
      linarith [r0.1, r0.2, r1.1, r1.2]
    · rw [hC1, hC2]
      linarith [r1.1, r1.2, r2.1, r2.2]
    · rw [hC2, hC3]
      linarith [r2.1, r2.2, r3.1, r3.2]
  · rintro ⟨nh, ehh⟩ ⟨ng, ehg⟩ ⟨nw, ehw⟩
    have hM : longest e = ((max nh (max ng nw) : ℤ) : ℚ) := by
      unfold longest
      rw [ehh, ehg, ehw, ← intCast_max ng nw, ← intCast_max nh (max ng nw)]
    have hr0 : round (longest e + BUFFER + off - e.hackTime)
        = max nh (max ng nw) + 1400 + offsetOf conc b - nh := by
      have harg : longest e + BUFFER + off - e.hackTime
          = ((max nh (max ng nw) + 1400 + offsetOf conc b - nh : ℤ) : ℚ) := by
        rw [hM, ehh, hB, hoffdef]
        push_cast
        ring
      rw [harg, round_intCast]
    have hr1 : round (longest e + BUFFER + off + 250 - e.weakenTime)
        = max nh (max ng nw) + 1400 + offsetOf conc b + 250 - nw := by
      have harg : longest e + BUFFER + off + 250 - e.weakenTime
          = ((max nh (max ng nw) + 1400 + offsetOf conc b + 250 - nw : ℤ) : ℚ) := by
        rw [hM, ehw, hB, hoffdef]
        push_cast
        ring
      rw [harg, round_intCast]
    have hr2 : round (longest e + BUFFER + off + 500 - e.growTime)
        = max nh (max ng nw) + 1400 + offsetOf conc b + 500 - ng := by
      have harg : longest e + BUFFER + off + 500 - e.growTime
          = ((max nh (max ng nw) + 1400 + offsetOf conc b + 500 - ng : ℤ) : ℚ) := by
        rw [hM, ehg, hB, hoffdef]
        push_cast
        ring
      rw [harg, round_intCast]
    have hr3 : round (longest e + BUFFER + off + 750 - e.weakenTime)
        = max nh (max ng nw) + 1400 + offsetOf conc b + 750 - nw := by
      have harg : longest e + BUFFER + off + 750 - e.weakenTime
          = ((max nh (max ng nw) + 1400 + offsetOf conc b + 750 - nw : ℤ) : ℚ) := by
        rw [hM, ehw, hB, hoffdef]
        push_cast
        ring
      rw [harg, round_intCast]
    refine ⟨?_, ?_, ?_⟩
    · rw [hC0, hC1, hr0, hr1, ehh, ehw, hD]
      push_cast
      ring
    · rw [hC1, hC2, hr1, hr2, ehg, ehw, hD]
      push_cast
      ring
    · rw [hC2, hC3, hr2, hr3, ehg, ehw, hD]
      push_cast
      ring

/-- C3 witness: with whole-millisecond durations 100/150/200 the
completions strictly increase and the first gap is exactly DELTA. -/
theorem completion_order_strict_and_exact_witness :
    (hackCompletion eShrink2000 0 1 0 < weaken1Completion eShrink2000 0 1 0) ∧
    weaken1Completion eShrink2000 0 1 0 - hackCompletion eShrink2000 0 1 0 = DELTA :=
  And.intro
    (completion_order_strict_and_exact eShrink2000 0 1 0 (by norm_num) (by norm_num)
      (by norm_num) (by with_unfolding_all decide) (by with_unfolding_all decide)
      (by with_unfolding_all decide)).1.1
    ((completion_order_strict_and_exact eShrink2000 0 1 0 (by norm_num) (by norm_num)
      (by norm_num) (by with_unfolding_all decide) (by with_unfolding_all decide)
      (by with_unfolding_all decide)).2
      (Exists.intro 100 (by norm_num [eShrink2000]))
      (Exists.intro 150 (by norm_num [eShrink2000]))
      (Exists.intro 200 (by norm_num [eShrink2000]))).1
